import Mathlib

/-!
Verification of the tf-annotations manifest generator (src/main.rs).

The program walks a root directory whose first-level subdirectories name raw
labels, probes every supported image file for its pixel dimensions, classifies
each raw label through a fixed two-group table, derives a centered bounding box
covering a configured percentage of each image, and writes a CSV manifest.

The embedding below follows the Rust source:
  - `calculate_bounding_box` performs its width/height scaling in `f32`
    (`width as f32 * (PERCENT as f32 / 100.0)`).  We model binary32 arithmetic
    exactly over `ℚ`: `rne` is round-to-nearest, ties-to-even onto the 24-bit
    significand grid of the value's binade.  Every value arising here lies in
    the normal finite range of binary32 (it is 0 or between 0.575 and 2^33),
    where this is exactly the IEEE-754 semantics used by Rust.
  - paths are modelled as lists of components, the filesystem as a tree of
    entries whose directory listings and image probes may fail, matching the
    fallible calls the program makes (`read_dir`, `image::open`).
  - the CSV writer is modelled by the list of records written; since no field
    produced by this program contains a quote, comma or newline, csv-crate
    quoting is the identity on fields and each record renders as the
    comma-separated join of its fields.
-/

attribute [local semireducible] Rat.mul Rat.add Rat.sub Rat.inv

/-! ### Exact model of binary32 rounding -/

/-- Fuel-driven floor of the base-2 logarithm.  With fuel at least `n` this
computes the floor of `log2 n`; the fuel makes the recursion structural, so it
reduces inside the kernel. -/
def log2fuel : ℕ → ℕ → ℕ
  | 0, _ => 0
  | fuel + 1, n => if 2 ≤ n then log2fuel fuel (n / 2) + 1 else 0

/-- Floor of the base-2 logarithm of a positive natural (0 at 0). -/
def natLog2 (n : ℕ) : ℕ := log2fuel n n

/-- `2 ^ e` over `ℚ` for a signed exponent, by an executable case split. -/
def pow2 (e : ℤ) : ℚ :=
  if 0 ≤ e then ((2 ^ e.toNat : ℕ) : ℚ) else 1 / ((2 ^ (-e).toNat : ℕ) : ℚ)

/-- Binade exponent of a positive rational: the unique `e` with
`2 ^ e ≤ q < 2 ^ (e + 1)` (see `qexp_spec`). -/
def qexp (q : ℚ) : ℤ :=
  let e0 : ℤ := (natLog2 q.num.natAbs : ℤ) - (natLog2 q.den : ℤ)
  if q < pow2 e0 then e0 - 1 else e0

/-- Round `q` onto the grid of spacing `2 ^ (e - 23)` (the binary32 unit in the
last place for a value of binade exponent `e`): nearest, ties to even. -/
def rneAux (q : ℚ) (e : ℤ) : ℚ :=
  ((if q / pow2 (e - 23) - (⌊q / pow2 (e - 23)⌋ : ℚ) < 1 / 2 then ⌊q / pow2 (e - 23)⌋
    else if 1 / 2 < q / pow2 (e - 23) - (⌊q / pow2 (e - 23)⌋ : ℚ) then ⌊q / pow2 (e - 23)⌋ + 1
    else if ⌊q / pow2 (e - 23)⌋ % 2 = 0 then ⌊q / pow2 (e - 23)⌋
    else ⌊q / pow2 (e - 23)⌋ + 1 : ℤ) : ℚ) * pow2 (e - 23)

/-- Round-to-nearest, ties-to-even onto the binary32 significand grid.  On the
normal finite range of binary32 — which contains every value manipulated by
`calculate_bounding_box` — this is exactly IEEE-754 binary32 rounding, hence
exactly what each Rust `f32` conversion and arithmetic operation produces. -/
def rne (q : ℚ) : ℚ := if q = 0 then 0 else rneAux q (qexp q)

/-- Rust `expr as u32` on a finite `f32` value: truncate toward zero and
saturate to the `u32` range. -/
def f32toU32 (q : ℚ) : ℕ := min ⌊q⌋.toNat (2 ^ 32 - 1)

/-- The `f32` constant `PERCENT as f32 / 100.0` of `calculate_bounding_box`:
the integer conversion rounds, then the division is correctly rounded. -/
def coverageConst (percent : ℕ) : ℚ := rne (rne percent / 100)

/-- The scaled box dimension `(width as f32 * (PERCENT as f32 / 100.0)) as u32`
computed by `calculate_bounding_box` (used for `w` and, with `height`, `h`). -/
def bboxW (percent width : ℕ) : ℕ :=
  f32toU32 (rne (rne width * coverageConst percent))

/-- `calculate_bounding_box::<PERCENT>(width, height)` from src/main.rs:
integer centers by truncating division, `f32` scaling for the box dimensions,
unsigned subtraction for the corners (the subtraction is in-range for every
reachable input, see claim C10). -/
def calculate_bounding_box (percent width height : ℕ) : ℕ × ℕ × ℕ × ℕ :=
  let x_center := width / 2
  let y_center := height / 2
  let w := bboxW percent width
  let h := bboxW percent height
  let xmin := x_center - w / 2
  let ymin := y_center - h / 2
  (xmin, ymin, xmin + w, ymin + h)

/-- Modelled from the spec, §4.4: the all-integer bounding-box formula
`w = floor(width * percent / 100)`, `h` analogous, box centered at
`(width / 2, height / 2)` with floor division throughout.  Stated for
comparison against the `f32` arithmetic the code actually performs. -/
def bboxSpecInt (percent width height : ℕ) : ℕ × ℕ × ℕ × ℕ :=
  let w := width * percent / 100
  let h := height * percent / 100
  let xmin := width / 2 - w / 2
  let ymin := height / 2 - h / 2
  (xmin, ymin, xmin + w, ymin + h)

/-! ### Strings, extensions and paths -/

/-- ASCII lower-casing of one character; on the ASCII-only extension strings
this program compares, it agrees with Rust's `str::to_lowercase`. -/
def asciiLower (c : Char) : Char :=
  if 'A' ≤ c ∧ c ≤ 'Z' then Char.ofNat (c.toNat + 32) else c

/-- Lower-case a string character by character. -/
def strLower (s : String) : String := String.mk (s.data.map asciiLower)

/-- Split a character list at every dot, keeping empty pieces, so that
`splitDots "ab.cd"` is `[ab, cd]`, `splitDots ".cd"` is `[, cd]`. -/
def splitDots : List Char → List (List Char)
  | [] => [[]]
  | c :: rest =>
    match splitDots rest with
    | [] => [[]]
    | g :: gs => if c = '.' then [] :: g :: gs else (c :: g) :: gs

/-- Rust `Path::extension` on a final path component: `none` when there is no
embedded dot or when the name starts with its only dot, otherwise the portion
after the final dot. -/
def extension (name : String) : Option String :=
  match splitDots name.data with
  | [] => none
  | [_] => none
  | first :: rest =>
    if first = [] ∧ rest.length = 1 then none
    else rest.getLast?.map (fun cs => String.mk cs)

/-- SUPPORTED_EXTENSIONS from src/main.rs. -/
def SUPPORTED_EXTENSIONS : List String := ["jpg", "jpeg", "png", "bmp"]

/-- is_supported_image from src/main.rs, on the file's name (Rust computes the
extension of the full path, which only depends on the final component). -/
def is_supported_image (name : String) : Bool :=
  match extension name with
  | some ext => SUPPORTED_EXTENSIONS.contains (strLower ext)
  | none => false

/-- Paths are lists of components; `get_base_dir` is
`ancestors().nth(1).unwrap_or("")`: the parent directory (the empty path when
there is none). -/
def get_base_dir (filename : List String) : List String := filename.dropLast

/-- Rust `Path::strip_prefix` on component lists: the remainder when `pre` is a
leading run of components, `none` otherwise. -/
def pathStrip : List String → List String → Option (List String)
  | rest, [] => some rest
  | [], _ :: _ => none
  | x :: xs, y :: ys => if x = y then pathStrip xs ys else none

/-- get_relative_filename from src/main.rs:
`strip_prefix(base_dir).unwrap_or(filename)`. -/
def get_relative_filename (filename base : List String) : List String :=
  (pathStrip filename base).getD filename

/-- extract_class from src/main.rs:
`path().parent()?.file_name()?`, i.e. the last component of the parent. -/
def extract_class (path : List String) : Option String :=
  path.dropLast.getLast?

/-- Render a component list back to a path string. -/
def renderPath (p : List String) : String := String.intercalate "/" p

/-! ### Data model and label classification -/

/-- ObjectDetection from src/main.rs.  The source field `class` (the name of
the directory containing the image, i.e. the raw label) is called `cls` here
because `class` is a Lean keyword. -/
structure ObjectDetection where
  filename : List String
  width : ℕ
  height : ℕ
  cls : String
  deriving DecidableEq

/-- LabelGroup from src/main.rs; the source field `class` is called `cls`. -/
structure LabelGroup where
  cls : String
  labels : List String
  deriving DecidableEq

/-- LabelClassification from src/main.rs: exactly two groups, `tanks` then
`lavs`, scanned in that (load) order by `get_class`. -/
structure LabelClassification where
  tanks : LabelGroup
  lavs : LabelGroup
  deriving DecidableEq

/-- The scan of `get_class`: first group whose label list contains the label. -/
def firstMatch : List LabelGroup → String → Option String
  | [], _ => none
  | g :: rest, label => if g.labels.contains label then some g.cls else firstMatch rest label

/-- LabelClassification::get_class from src/main.rs: iterate over
`[tanks, lavs]`, return the class of the first group containing the label. -/
def get_class (c : LabelClassification) (label : String) : Option String :=
  firstMatch [c.tanks, c.lavs] label

/-! ### Filesystem model and traversal -/

/-- One filesystem entry as the traversal observes it: a directory carries the
outcome of listing it (`read_dir` can fail), a regular file carries the outcome
of probing its header (`image::open(..).dimensions()` can fail). -/
inductive Entry
  | dirE (name : String) (listing : Except String (List Entry))
  | fileE (name : String) (probe : Except String (ℕ × ℕ))

/-- Equality of fallible outcomes is decidable (used to evaluate the model on
concrete filesystems). -/
instance {ε α : Type} [DecidableEq ε] [DecidableEq α] : DecidableEq (Except ε α)
  | .error x, .error y => decidable_of_iff (x = y) (by simp)
  | .error _, .ok _ => .isFalse (by simp)
  | .ok _, .error _ => .isFalse (by simp)
  | .ok x, .ok y => decidable_of_iff (x = y) (by simp)

/-- The `entry.path().is_dir()` filter applied to top-level entries. -/
def isDirEntry : Entry → Bool
  | .dirE _ _ => true
  | .fileE _ _ => false

/-- The per-bucket file filter: `is_file() && is_supported_image(path)`. -/
def entryFile : Entry → Option (String × Except String (ℕ × ℕ))
  | .fileE name probe => if is_supported_image name then some (name, probe) else none
  | .dirE _ _ => none

/-- `collect::<Result<Vec<_>>>()`: map, short-circuiting at the first error. -/
def mapExcept {α β : Type} (f : α → Except String β) : List α → Except String (List β)
  | [] => .ok []
  | x :: xs =>
    match f x with
    | .error e => .error e
    | .ok y =>
      match mapExcept f xs with
      | .error e => .error e
      | .ok ys => .ok (y :: ys)

/-- The per-file body of traverse_images: build the path, take the parent
directory's name as the raw label (`extract_class`, erroring like the
`ok_or_else` in the source when it is absent), then probe the dimensions. -/
def probeFile (rootName bname : String) (f : String × Except String (ℕ × ℕ)) :
    Except String ObjectDetection :=
  let path := [rootName, bname, f.1]
  match extract_class path with
  | none => .error "Class not found"
  | some cls =>
    match f.2 with
    | .error e => .error e
    | .ok wh => .ok ⟨path, wh.1, wh.2, cls⟩

/-- The per-directory body of traverse_images: list the bucket, keep supported
regular files, probe each in order, failing on the first error. -/
def processBucket (rootName : String) : Entry → Except String (List ObjectDetection)
  | .fileE _ _ => .ok []
  | .dirE bname listing =>
    match listing with
    | .error e => .error e
    | .ok entries => mapExcept (probeFile rootName bname) (entries.filterMap entryFile)

/-- traverse_images from src/main.rs.  `rootListing` is the outcome of
`fs::read_dir(root)`.  The rayon bucket-level parallelism is modelled by the
sequential fold it is equivalent to: the collected buckets appear in directory
order and `collect::<Result<_>>` surfaces an error iff some bucket fails. -/
def traverse_images (rootName : String) (rootListing : Except String (List Entry)) :
    Except String (List ObjectDetection) :=
  match rootListing with
  | .error e => .error e
  | .ok entries =>
    match mapExcept (processBucket rootName) (entries.filter isDirEntry) with
    | .error e => .error e
    | .ok nested => .ok nested.flatten

/-! ### Export -/

/-- The header record written by export. -/
def csvHeader : List String :=
  ["filename", "width", "height", "class", "xmin", "ymin", "xmax", "ymax"]

/-- One data record of export: relative filename, dimensions, canonical class,
and the four bounding-box corners at the instantiated coverage of 80. -/
def rowOf (object : ObjectDetection) (cls : String) : List String :=
  let base_dir := get_base_dir object.filename
  let filename := get_relative_filename object.filename base_dir
  let bb := calculate_bounding_box 80 object.width object.height
  [renderPath filename, toString object.width, toString object.height, cls,
    toString bb.1, toString bb.2.1, toString bb.2.2.1, toString bb.2.2.2]

/-- The data loop of export: for each detection in order, write its record when
its raw label classifies, otherwise print (report) the skipped label. -/
def exportLoop (classifier : LabelClassification) :
    List ObjectDetection → List (List String) × List String
  | [] => ([], [])
  | d :: rest =>
    let r := exportLoop classifier rest
    match get_class classifier d.cls with
    | some cls => (rowOf d cls :: r.1, r.2)
    | none => (r.1, d.cls :: r.2)

/-- export from src/main.rs (named `exportCsv` because `export` is a Lean
keyword): the pair of (records written to tensorflow.csv, in order) and
(raw labels reported as skipped, in order). -/
def exportCsv (data : List ObjectDetection) (classifier : LabelClassification) :
    List (List String) × List String :=
  (csvHeader :: (exportLoop classifier data).1, (exportLoop classifier data).2)

/-- Render one CSV record; no field this program produces needs quoting. -/
def renderRecord (r : List String) : String := String.intercalate "," r

/-- Render the written file as its list of lines. -/
def renderCsv (records : List (List String)) : List String :=
  records.map renderRecord

/-- The core pipeline of main: traverse, then export; when traversal fails the
error propagates and no CSV is produced. -/
def runPipeline (rootName : String) (rootListing : Except String (List Entry))
    (classifier : LabelClassification) :
    Except String (List (List String) × List String) :=
  match traverse_images rootName rootListing with
  | .error e => .error e
  | .ok result => .ok (exportCsv result classifier)

/-! ### Spec-side definitions for comparison -/

/-- A probe failure of one qualifying file, as an optional error. -/
def entryProbeErr (f : String × Except String (ℕ × ℕ)) : Option String :=
  match f.2 with
  | .error e => some e
  | .ok _ => none

/-- The first failure inside one label bucket: its listing error, or the first
probe failure among its qualifying files. -/
def bucketErr : Entry → Option String
  | .fileE _ _ => none
  | .dirE _ listing =>
    match listing with
    | .error e => some e
    | .ok entries => (entries.filterMap entryFile).findSome? entryProbeErr

/-- Modelled from the spec, §4.1 failure policy: the first error any part of
extraction encounters, in traversal order — a bucket that cannot be listed or a
qualifying file whose header cannot be decoded. -/
def firstExtractionError (entries : List Entry) : Option String :=
  (entries.filter isDirEntry).findSome? bucketErr

/-- The classification table of the spec's §8 example (and of the repository's
label_classification2.toml). -/
def exampleClassifier : LabelClassification :=
  ⟨⟨"tank", ["t-80", "t-90"]⟩, ⟨"lav", ["btr-70"]⟩⟩

/-- The filesystem of the spec's §8 end-to-end example. -/
def exampleFs : List Entry :=
  [.dirE "t-80" (.ok [.fileE "a.jpg" (.ok (100, 100)), .fileE "b.png" (.ok (50, 60))]),
   .dirE "unknown" (.ok [.fileE "c.bmp" (.ok (10, 10))])]

/-! ### Properties of the rounding model -/

theorem pow2_eq_zpow (e : ℤ) : pow2 e = (2 : ℚ) ^ e := by
  unfold pow2
  split
  · next h =>
    push_cast
    rw [← zpow_natCast (2 : ℚ) e.toNat, Int.toNat_of_nonneg h]
  · next h =>
    push_cast
    rw [← zpow_natCast (2 : ℚ) (-e).toNat, Int.toNat_of_nonneg (by omega : (0 : ℤ) ≤ -e),
      one_div, ← zpow_neg, neg_neg]

theorem pow2_pos (e : ℤ) : 0 < pow2 e := by
  rw [pow2_eq_zpow]; exact zpow_pos (by norm_num) e

theorem pow2_ne_zero (e : ℤ) : pow2 e ≠ 0 := (pow2_pos e).ne'

theorem pow2_add (a b : ℤ) : pow2 (a + b) = pow2 a * pow2 b := by
  rw [pow2_eq_zpow, pow2_eq_zpow, pow2_eq_zpow]; exact zpow_add₀ (by norm_num) a b

theorem pow2_lt_pow2 {a b : ℤ} (h : a < b) : pow2 a < pow2 b := by
  rw [pow2_eq_zpow, pow2_eq_zpow]; exact zpow_lt_zpow_right₀ (by norm_num) h

theorem pow2_le_pow2 {a b : ℤ} (h : a ≤ b) : pow2 a ≤ pow2 b := by
  rcases eq_or_lt_of_le h with rfl | h'
  · exact le_refl _
  · exact (pow2_lt_pow2 h').le

theorem pow2_natCast (m : ℕ) : pow2 (m : ℤ) = (2 : ℚ) ^ m := by
  rw [pow2_eq_zpow, zpow_natCast]

theorem pow2_natCast_succ (m : ℕ) : pow2 ((m : ℤ) + 1) = (2 : ℚ) ^ (m + 1) := by
  have h : ((m : ℤ) + 1) = ((m + 1 : ℕ) : ℤ) := by push_cast; ring
  rw [h, pow2_natCast]

theorem pow2_one_val : pow2 (1 : ℤ) = 2 := by decide

theorem pow2_neg24_val : pow2 (-24 : ℤ) = 1 / 16777216 := by decide

theorem pow2_21_val : pow2 (21 : ℤ) = 2097152 := by decide

theorem pow2_24_val : pow2 (24 : ℤ) = 16777216 := by decide

theorem pow2_25_val : pow2 (25 : ℤ) = 33554432 := by decide

theorem pow2_zero_val : pow2 (0 : ℤ) = 1 := by decide

theorem log2fuel_spec : ∀ fuel n : ℕ, 1 ≤ n → n ≤ fuel →
    2 ^ log2fuel fuel n ≤ n ∧ n < 2 ^ (log2fuel fuel n + 1) := by
  intro fuel
  induction fuel with
  | zero => intro n h1 h2; omega
  | succ f ih =>
    intro n h1 h2
    simp only [log2fuel]
    split
    · next h =>
      obtain ⟨hk1, hk2⟩ := ih (n / 2) (by omega) (by omega)
      have e1 : 2 ^ (log2fuel f (n / 2) + 1) = 2 * 2 ^ log2fuel f (n / 2) := by ring
      have e2 : 2 ^ (log2fuel f (n / 2) + 1 + 1) = 4 * 2 ^ log2fuel f (n / 2) := by ring
      omega
    · next h =>
      have : 2 ^ (0 + 1) = 2 := by norm_num
      omega

theorem natLog2_spec (n : ℕ) (h : 1 ≤ n) :
    2 ^ natLog2 n ≤ n ∧ n < 2 ^ (natLog2 n + 1) :=
  log2fuel_spec n n h le_rfl

theorem natLog2_div_bounds (a b : ℕ) (ha : 1 ≤ a) (hb : 1 ≤ b) :
    pow2 ((natLog2 a : ℤ) - natLog2 b - 1) < (a : ℚ) / b ∧
    (a : ℚ) / b < pow2 ((natLog2 a : ℤ) - natLog2 b + 1) := by
  obtain ⟨hla, hla'⟩ := natLog2_spec a ha
  obtain ⟨hlb, hlb'⟩ := natLog2_spec b hb
  have hbq : (0 : ℚ) < (b : ℚ) := by exact_mod_cast hb
  constructor
  · rw [lt_div_iff₀ hbq]
    calc pow2 ((natLog2 a : ℤ) - natLog2 b - 1) * (b : ℚ)
        < pow2 ((natLog2 a : ℤ) - natLog2 b - 1) * (2 : ℚ) ^ (natLog2 b + 1) := by
          have h2 : (b : ℚ) < (2 : ℚ) ^ (natLog2 b + 1) := by exact_mod_cast hlb'
          exact (mul_lt_mul_left (pow2_pos _)).mpr h2
      _ = pow2 ((natLog2 a : ℤ) - natLog2 b - 1) * pow2 ((natLog2 b : ℤ) + 1) := by
          rw [pow2_natCast_succ]
      _ = pow2 (natLog2 a : ℤ) := by rw [← pow2_add]; congr 1; ring
      _ = (2 : ℚ) ^ natLog2 a := pow2_natCast _
      _ ≤ (a : ℚ) := by exact_mod_cast hla
  · rw [div_lt_iff₀ hbq]
    calc (a : ℚ) < (2 : ℚ) ^ (natLog2 a + 1) := by exact_mod_cast hla'
      _ = pow2 ((natLog2 a : ℤ) + 1) := by
          rw [pow2_natCast_succ]
      _ = pow2 ((natLog2 a : ℤ) - natLog2 b + 1) * pow2 (natLog2 b : ℤ) := by
          rw [← pow2_add]; congr 1; ring
      _ ≤ pow2 ((natLog2 a : ℤ) - natLog2 b + 1) * (b : ℚ) := by
          have h2 : pow2 (natLog2 b : ℤ) ≤ (b : ℚ) := by
            rw [pow2_natCast]; exact_mod_cast hlb
          exact mul_le_mul_of_nonneg_left h2 (pow2_pos _).le

theorem qexp_spec (q : ℚ) (hq : 0 < q) : pow2 (qexp q) ≤ q ∧ q < pow2 (qexp q + 1) := by
  have hnum : 0 < q.num := Rat.num_pos.mpr hq
  have ha1 : 1 ≤ q.num.natAbs := by omega
  have hb1 : 1 ≤ q.den := q.den_pos
  have hq_eq : (q.num.natAbs : ℚ) / (q.den : ℚ) = q := by
    have hcast2 : ((q.num.natAbs : ℕ) : ℚ) = ((q.num : ℤ) : ℚ) := by
      rw [Int.cast_natAbs]
      exact_mod_cast abs_of_nonneg hnum.le
    rw [hcast2, Rat.num_div_den]
  obtain ⟨hlo, hub⟩ := natLog2_div_bounds q.num.natAbs q.den ha1 hb1
  rw [hq_eq] at hlo hub
  simp only [qexp]
  split
  · next hlt =>
    refine ⟨hlo.le, ?_⟩
    rw [sub_add_cancel]
    exact hlt
  · next hge => exact ⟨not_lt.mp hge, hub⟩

theorem rneAux_key (q : ℚ) (e : ℤ) (m : ℤ) :
    |(m : ℚ) * pow2 (e - 23) - q| = |(m : ℚ) - q / pow2 (e - 23)| * pow2 (e - 23) := by
  have hu : pow2 (e - 23) ≠ 0 := pow2_ne_zero _
  have h : (m : ℚ) * pow2 (e - 23) - q = ((m : ℚ) - q / pow2 (e - 23)) * pow2 (e - 23) := by
    field_simp
  rw [h, abs_mul, abs_of_pos (pow2_pos _)]

theorem rneAux_sub_abs (q : ℚ) (e : ℤ) : |rneAux q e - q| ≤ pow2 (e - 24) := by
  have hu0 : 0 < pow2 (e - 23) := pow2_pos _
  have hhalf : 1 / 2 * pow2 (e - 23) = pow2 (e - 24) := by
    have h3 : e - 23 = 1 + (e - 24) := by ring
    rw [h3, pow2_add, pow2_one_val]
    ring
  have h1 : (⌊q / pow2 (e - 23)⌋ : ℚ) ≤ q / pow2 (e - 23) := Int.floor_le _
  have h2 : q / pow2 (e - 23) < ⌊q / pow2 (e - 23)⌋ + 1 := Int.lt_floor_add_one _
  unfold rneAux
  split_ifs with hc1 hc2 hc3
  · rw [rneAux_key]
    refine le_trans (mul_le_mul_of_nonneg_right ?_ hu0.le) hhalf.le
    rw [abs_le]
    constructor <;> linarith
  · rw [rneAux_key]
    refine le_trans (mul_le_mul_of_nonneg_right ?_ hu0.le) hhalf.le
    rw [abs_le]
    push_cast
    constructor <;> linarith
  · rw [rneAux_key]
    refine le_trans (mul_le_mul_of_nonneg_right ?_ hu0.le) hhalf.le
    rw [abs_le]
    constructor <;> linarith
  · rw [rneAux_key]
    refine le_trans (mul_le_mul_of_nonneg_right ?_ hu0.le) hhalf.le
    rw [abs_le]
    push_cast
    constructor <;> linarith

theorem rneAux_ge_mul (q : ℚ) (e : ℤ) (k : ℤ) (hk : (k : ℚ) * pow2 (e - 23) ≤ q) :
    (k : ℚ) * pow2 (e - 23) ≤ rneAux q e := by
  have hu0 : 0 < pow2 (e - 23) := pow2_pos _
  have hkn : (k : ℚ) ≤ q / pow2 (e - 23) := (le_div_iff₀ hu0).mpr hk
  have hkfl : k ≤ ⌊q / pow2 (e - 23)⌋ := Int.le_floor.mpr hkn
  unfold rneAux
  split_ifs with hc1 hc2 hc3
  · exact mul_le_mul_of_nonneg_right (by exact_mod_cast hkfl) hu0.le
  · exact mul_le_mul_of_nonneg_right
      (by exact_mod_cast (by omega : k ≤ ⌊q / pow2 (e - 23)⌋ + 1)) hu0.le
  · exact mul_le_mul_of_nonneg_right (by exact_mod_cast hkfl) hu0.le
  · exact mul_le_mul_of_nonneg_right
      (by exact_mod_cast (by omega : k ≤ ⌊q / pow2 (e - 23)⌋ + 1)) hu0.le

theorem rneAux_fixed (q : ℚ) (e : ℤ) (k : ℤ) (hq : q = (k : ℚ) * pow2 (e - 23)) :
    rneAux q e = q := by
  have hu : pow2 (e - 23) ≠ 0 := pow2_ne_zero _
  have hn : q / pow2 (e - 23) = (k : ℚ) := by rw [hq]; field_simp
  unfold rneAux
  rw [hn, Int.floor_intCast, sub_self, if_pos (by norm_num : (0 : ℚ) < 1 / 2)]
  exact hq.symm

theorem rne_bounds (q : ℚ) (hq : 0 ≤ q) :
    q * (16777215 / 16777216) ≤ rne q ∧ rne q ≤ q * (16777217 / 16777216) := by
  rcases eq_or_lt_of_le hq with rfl | hq0
  · unfold rne
    norm_num
  · have hne : q ≠ 0 := hq0.ne'
    unfold rne
    rw [if_neg hne]
    obtain ⟨he1, _⟩ := qexp_spec q hq0
    have hd := rneAux_sub_abs q (qexp q)
    rw [abs_le] at hd
    have h24 : pow2 (qexp q - 24) ≤ q * (1 / 16777216) := by
      have harg : qexp q - 24 = qexp q + (-24) := by ring
      have hsplit : pow2 (qexp q - 24) = pow2 (qexp q) * pow2 (-24) := by
        rw [harg, pow2_add]
      rw [hsplit, pow2_neg24_val]
      exact mul_le_mul_of_nonneg_right he1 (by norm_num)
    constructor <;> linarith [hd.1, hd.2]

theorem rne_nonneg (q : ℚ) (hq : 0 ≤ q) : 0 ≤ rne q := by
  have h := (rne_bounds q hq).1
  have h0 : 0 ≤ q * (16777215 / 16777216) := mul_nonneg hq (by norm_num)
  linarith

theorem rne_int (x : ℕ) (hx : x ≤ 2 ^ 24) : rne (x : ℚ) = (x : ℚ) := by
  rcases Nat.eq_zero_or_pos x with rfl | hpos
  · unfold rne
    norm_num
  · have hq0 : (0 : ℚ) < (x : ℚ) := by exact_mod_cast hpos
    unfold rne
    rw [if_neg hq0.ne']
    obtain ⟨he1, _⟩ := qexp_spec (x : ℚ) hq0
    have hxle : (x : ℚ) ≤ 16777216 := by exact_mod_cast hx
    have he24 : qexp (x : ℚ) ≤ 24 := by
      by_contra hcon
      push_neg at hcon
      have h25 : pow2 25 ≤ pow2 (qexp (x : ℚ)) := pow2_le_pow2 (by omega)
      rw [pow2_25_val] at h25
      linarith
    rcases lt_or_eq_of_le he24 with h23 | h24eq
    · have htn : ((23 - qexp (x : ℚ)).toNat : ℤ) = 23 - qexp (x : ℚ) :=
        Int.toNat_of_nonneg (by omega)
      apply rneAux_fixed (x : ℚ) (qexp (x : ℚ)) ((x : ℤ) * 2 ^ (23 - qexp (x : ℚ)).toNat)
      push_cast
      rw [← pow2_natCast ((23 - qexp (x : ℚ)).toNat), htn, mul_assoc, ← pow2_add]
      have h0 : 23 - qexp (x : ℚ) + (qexp (x : ℚ) - 23) = 0 := by ring
      rw [h0, pow2_zero_val, mul_one]
    · rw [h24eq]
      apply rneAux_fixed (x : ℚ) 24 (2 ^ 23)
      have hxge : (16777216 : ℚ) ≤ (x : ℚ) := by
        rw [← pow2_24_val, ← h24eq]
        exact he1
      have hxeq : (x : ℚ) = 16777216 := le_antisymm hxle hxge
      rw [hxeq]
      have h1 : (24 : ℤ) - 23 = 1 := by norm_num
      rw [h1, pow2_one_val]
      push_cast
      norm_num

theorem coverageConst_80_eq : coverageConst 80 = 13421773 / 16777216 := by decide

theorem bboxW_80_le (width : ℕ) : bboxW 80 width ≤ width := by
  rcases Nat.eq_zero_or_pos width with rfl | hpos
  · decide
  · have hW1 : (1 : ℚ) ≤ (width : ℚ) := by exact_mod_cast hpos
    have hW0 : (0 : ℚ) ≤ (width : ℚ) := by linarith
    have hrle := (rne_bounds (width : ℚ) hW0).2
    have hr0 : 0 ≤ rne (width : ℚ) := rne_nonneg _ hW0
    have hp0 : 0 ≤ rne (width : ℚ) * coverageConst 80 := by
      rw [coverageConst_80_eq]
      exact mul_nonneg hr0 (by norm_num)
    have hb := (rne_bounds _ hp0).2
    have hkey : rne (rne (width : ℚ) * coverageConst 80) < (width : ℚ) := by
      have step : rne (width : ℚ) * (13421773 / 16777216) ≤
          ((width : ℚ) * (16777217 / 16777216)) * (13421773 / 16777216) :=
        mul_le_mul_of_nonneg_right hrle (by norm_num)
      calc rne (rne (width : ℚ) * coverageConst 80)
          ≤ (rne (width : ℚ) * coverageConst 80) * (16777217 / 16777216) := hb
        _ = (rne (width : ℚ) * (13421773 / 16777216)) * (16777217 / 16777216) := by
            rw [coverageConst_80_eq]
        _ ≤ (((width : ℚ) * (16777217 / 16777216)) * (13421773 / 16777216)) *
              (16777217 / 16777216) :=
            mul_le_mul_of_nonneg_right step (by norm_num)
        _ < (width : ℚ) := by nlinarith [hW1]
    have hfloor : ⌊rne (rne (width : ℚ) * coverageConst 80)⌋ < (width : ℤ) := by
      rw [Int.floor_lt]
      push_cast
      exact hkey
    simp only [bboxW, f32toU32]
    have h1 : ⌊rne (rne (width : ℚ) * coverageConst 80)⌋.toNat ≤ width := by omega
    exact le_trans (min_le_left _ _) h1

theorem bboxW_80_eq_int (n : ℕ) (hn : n ≤ 2 ^ 21) : bboxW 80 n = n * 80 / 100 := by
  rcases Nat.eq_zero_or_pos n with rfl | hpos
  · decide
  · have hn1 : (1 : ℚ) ≤ (n : ℚ) := by exact_mod_cast hpos
    have hnq : (n : ℚ) ≤ 2097152 := by exact_mod_cast hn
    have hrw : rne (n : ℚ) = (n : ℚ) := rne_int n (by omega)
    have hpre : rne (n : ℚ) * coverageConst 80 = (n : ℚ) * (13421773 / 16777216) := by
      rw [hrw, coverageConst_80_eq]
    have hp0 : 0 < (n : ℚ) * (13421773 / 16777216) :=
      mul_pos (by linarith) (by norm_num)
    obtain ⟨he1, _⟩ := qexp_spec _ hp0
    have hple : (n : ℚ) * (13421773 / 16777216) ≤ (n : ℚ) := by
      have h := mul_le_mul_of_nonneg_left (by norm_num : (13421773 / 16777216 : ℚ) ≤ 1)
        (by linarith : (0 : ℚ) ≤ (n : ℚ))
      linarith [h]
    have he20 : qexp ((n : ℚ) * (13421773 / 16777216)) ≤ 20 := by
      by_contra hcon
      push_neg at hcon
      have h21 : pow2 21 ≤ pow2 (qexp ((n : ℚ) * (13421773 / 16777216))) :=
        pow2_le_pow2 (by omega)
      rw [pow2_21_val] at h21
      have hlt : (n : ℚ) * (13421773 / 16777216) < 2097152 := by nlinarith [hnq]
      linarith
    have hkb1 : 100 * (n * 80 / 100) ≤ n * 80 := by omega
    have hkb2 : n * 80 ≤ 100 * (n * 80 / 100) + 80 := by omega
    have hkq1 : ((n * 80 / 100 : ℕ) : ℚ) ≤ (n : ℚ) * (4 / 5) := by
      have hcast : (100 : ℚ) * ((n * 80 / 100 : ℕ) : ℚ) ≤ (n : ℚ) * 80 := by
        exact_mod_cast hkb1
      linarith
    have hkq2 : (n : ℚ) * (4 / 5) ≤ ((n * 80 / 100 : ℕ) : ℚ) + 4 / 5 := by
      have hcast : (n : ℚ) * 80 ≤ 100 * ((n * 80 / 100 : ℕ) : ℚ) + 80 := by
        exact_mod_cast hkb2
      linarith
    have hpk : ((n * 80 / 100 : ℕ) : ℚ) ≤ (n : ℚ) * (13421773 / 16777216) := by
      refine le_trans hkq1 ?_
      have h := mul_le_mul_of_nonneg_left
        (by norm_num : (4 / 5 : ℚ) ≤ 13421773 / 16777216) (by linarith : (0 : ℚ) ≤ (n : ℚ))
      linarith [h]
    have htn : (((23 : ℤ) - qexp ((n : ℚ) * (13421773 / 16777216))).toNat : ℤ) =
        23 - qexp ((n : ℚ) * (13421773 / 16777216)) := Int.toNat_of_nonneg (by omega)
    have hKk : ((((n * 80 / 100 : ℕ) : ℤ) *
          2 ^ ((23 : ℤ) - qexp ((n : ℚ) * (13421773 / 16777216))).toNat : ℤ) : ℚ) *
          pow2 (qexp ((n : ℚ) * (13421773 / 16777216)) - 23) = ((n * 80 / 100 : ℕ) : ℚ) := by
      push_cast
      rw [← pow2_natCast (((23 : ℤ) - qexp ((n : ℚ) * (13421773 / 16777216))).toNat), htn,
        mul_assoc, ← pow2_add]
      have h0 : 23 - qexp ((n : ℚ) * (13421773 / 16777216)) +
          (qexp ((n : ℚ) * (13421773 / 16777216)) - 23) = 0 := by ring
      rw [h0, pow2_zero_val, mul_one]
      norm_cast
    have hlow : ((n * 80 / 100 : ℕ) : ℚ) ≤
        rneAux ((n : ℚ) * (13421773 / 16777216)) (qexp ((n : ℚ) * (13421773 / 16777216))) := by
      have h := rneAux_ge_mul ((n : ℚ) * (13421773 / 16777216))
        (qexp ((n : ℚ) * (13421773 / 16777216)))
        (((n * 80 / 100 : ℕ) : ℤ) * 2 ^ ((23 : ℤ) - qexp ((n : ℚ) * (13421773 / 16777216))).toNat)
        (by rw [hKk]; exact hpk)
      rw [hKk] at h
      exact h
    have hup : rneAux ((n : ℚ) * (13421773 / 16777216)) (qexp ((n : ℚ) * (13421773 / 16777216))) <
        ((n * 80 / 100 : ℕ) : ℚ) + 1 := by
      have hd := rneAux_sub_abs ((n : ℚ) * (13421773 / 16777216))
        (qexp ((n : ℚ) * (13421773 / 16777216)))
      rw [abs_le] at hd
      have h24 : pow2 (qexp ((n : ℚ) * (13421773 / 16777216)) - 24) ≤ (n : ℚ) * (1 / 16777216) := by
        have harg : qexp ((n : ℚ) * (13421773 / 16777216)) - 24 =
            qexp ((n : ℚ) * (13421773 / 16777216)) + (-24) := by ring
        rw [harg, pow2_add, pow2_neg24_val]
        have step : pow2 (qexp ((n : ℚ) * (13421773 / 16777216))) ≤ (n : ℚ) :=
          le_trans he1 hple
        exact mul_le_mul_of_nonneg_right step (by norm_num)
      have hps : (n : ℚ) * (13421773 / 16777216) =
          (n : ℚ) * (4 / 5) + (n : ℚ) * (1 / 83886080) := by ring
      linarith [hd.2, hnq, hkq2]
    have hfl : ⌊rneAux ((n : ℚ) * (13421773 / 16777216))
        (qexp ((n : ℚ) * (13421773 / 16777216)))⌋ = ((n * 80 / 100 : ℕ) : ℤ) := by
      rw [Int.floor_eq_iff]
      constructor
      · exact_mod_cast hlow
      · push_cast
        exact hup
    have hrne : rne (rne (n : ℚ) * coverageConst 80) =
        rneAux ((n : ℚ) * (13421773 / 16777216)) (qexp ((n : ℚ) * (13421773 / 16777216))) := by
      rw [hpre, rne, if_neg hp0.ne']
    simp only [bboxW, f32toU32, hrne, hfl]
    omega
/-! ### Properties of traversal and export -/

theorem extract_class_eq (r b f : String) : extract_class [r, b, f] = some b := rfl

theorem renderPath_single (s : String) : renderPath [s] = s := rfl

theorem probeFile_ok_eval (r b f : String) (wh : ℕ × ℕ) :
    probeFile r b (f, .ok wh) = .ok ⟨[r, b, f], wh.1, wh.2, b⟩ := rfl

theorem probeFile_error_eval (r b f e : String) :
    probeFile r b (f, .error e) = .error e := rfl

theorem mapExcept_ok_mem {α β : Type} {f : α → Except String β} :
    ∀ {l : List α} {ys : List β}, mapExcept f l = .ok ys → ∀ y ∈ ys, ∃ x ∈ l, f x = .ok y := by
  intro l
  induction l with
  | nil =>
    intro ys h y hy
    simp only [mapExcept, Except.ok.injEq] at h
    subst h
    simp at hy
  | cons x xs ih =>
    intro ys h y hy
    cases hfx : f x with
    | error e => simp [mapExcept, hfx] at h
    | ok y0 =>
      cases hrest : mapExcept f xs with
      | error e => simp [mapExcept, hfx, hrest] at h
      | ok ys0 =>
        simp only [mapExcept, hfx, hrest, Except.ok.injEq] at h
        subst h
        rcases List.mem_cons.mp hy with rfl | hmem
        · exact ⟨x, List.mem_cons_self x xs, hfx⟩
        · obtain ⟨x', hx', hfx'⟩ := ih hrest y hmem
          exact ⟨x', List.mem_cons_of_mem x hx', hfx'⟩

theorem mapExcept_probe_error (rootName bname : String) :
    ∀ (l : List (String × Except String (ℕ × ℕ))) (e : String),
      l.findSome? entryProbeErr = some e →
      mapExcept (probeFile rootName bname) l = .error e := by
  intro l
  induction l with
  | nil => intro e h; simp [List.findSome?] at h
  | cons x xs ih =>
    intro e h
    obtain ⟨fname, probe⟩ := x
    cases probe with
    | error e0 =>
      have hhead : entryProbeErr (fname, Except.error e0) = some e0 := rfl
      simp only [List.findSome?_cons, hhead, Option.some.injEq] at h
      subst h
      simp [mapExcept, probeFile_error_eval]
    | ok wh =>
      have hhead : entryProbeErr (fname, Except.ok wh) = none := rfl
      simp only [List.findSome?_cons, hhead] at h
      simp [mapExcept, probeFile_ok_eval, ih e h]

theorem mapExcept_probe_ok (rootName bname : String) :
    ∀ l : List (String × Except String (ℕ × ℕ)),
      l.findSome? entryProbeErr = none →
      ∃ dets, mapExcept (probeFile rootName bname) l = .ok dets := by
  intro l
  induction l with
  | nil => intro _; exact ⟨[], rfl⟩
  | cons x xs ih =>
    intro h
    obtain ⟨fname, probe⟩ := x
    cases probe with
    | error e0 =>
      have hhead : entryProbeErr (fname, Except.error e0) = some e0 := rfl
      simp [List.findSome?_cons, hhead] at h
    | ok wh =>
      have hhead : entryProbeErr (fname, Except.ok wh) = none := rfl
      simp only [List.findSome?_cons, hhead] at h
      obtain ⟨dets, hdets⟩ := ih h
      exact ⟨⟨[rootName, bname, fname], wh.1, wh.2, bname⟩ :: dets, by
        simp [mapExcept, probeFile_ok_eval, hdets]⟩

theorem processBucket_dirE_ok (r b : String) (files : List Entry) :
    processBucket r (.dirE b (.ok files)) =
      mapExcept (probeFile r b) (files.filterMap entryFile) := rfl

theorem processBucket_error_of_some (rootName : String) (ent : Entry) (e : String)
    (h : bucketErr ent = some e) : processBucket rootName ent = .error e := by
  cases ent with
  | fileE n p => simp [bucketErr] at h
  | dirE b listing =>
    cases listing with
    | error e0 =>
      simp only [bucketErr, Option.some.injEq] at h
      subst h
      rfl
    | ok files =>
      simp only [bucketErr] at h
      rw [processBucket_dirE_ok]
      exact mapExcept_probe_error rootName b _ e h

theorem processBucket_ok_of_none (rootName : String) (ent : Entry)
    (h : bucketErr ent = none) : ∃ dets, processBucket rootName ent = .ok dets := by
  cases ent with
  | fileE n p => exact ⟨[], rfl⟩
  | dirE b listing =>
    cases listing with
    | error e0 => simp [bucketErr] at h
    | ok files =>
      simp only [bucketErr] at h
      obtain ⟨dets, hdets⟩ := mapExcept_probe_ok rootName b _ h
      exact ⟨dets, by rw [processBucket_dirE_ok]; exact hdets⟩

theorem mapExcept_buckets_error (rootName : String) :
    ∀ (dirs : List Entry) (e : String),
      dirs.findSome? bucketErr = some e →
      mapExcept (processBucket rootName) dirs = .error e := by
  intro dirs
  induction dirs with
  | nil => intro e h; simp [List.findSome?] at h
  | cons ent rest ih =>
    intro e h
    cases hbe : bucketErr ent with
    | some e0 =>
      simp only [List.findSome?_cons, hbe, Option.some.injEq] at h
      subst h
      simp [mapExcept, processBucket_error_of_some rootName ent e0 hbe]
    | none =>
      simp only [List.findSome?_cons, hbe] at h
      obtain ⟨dets, hdets⟩ := processBucket_ok_of_none rootName ent hbe
      simp [mapExcept, hdets, ih e h]

theorem exportLoop_spec (classifier : LabelClassification) :
    ∀ data : List ObjectDetection,
      exportLoop classifier data =
        (data.filterMap (fun d => (get_class classifier d.cls).map (rowOf d)),
          data.filterMap (fun d =>
            match get_class classifier d.cls with
            | some _ => none
            | none => some d.cls)) := by
  intro data
  induction data with
  | nil => rfl
  | cons d rest ih =>
    simp only [exportLoop, ih, List.filterMap_cons]
    cases hgc : get_class classifier d.cls with
    | some cn => simp [hgc]
    | none => simp [hgc]

/-! ### Claims -/

/-- Claim C1, as stated, is false on the code: for the §8 example filesystem
the pipeline does not produce the rows `t-80/a.jpg,...` and `t-80/b.png,...`,
because `get_base_dir` strips the file's parent directory (the label bucket
itself), leaving only the final component. -/
theorem claim_C1_counterexample :
    runPipeline "images" (.ok exampleFs) exampleClassifier ≠
      .ok ([["filename", "width", "height", "class", "xmin", "ymin", "xmax", "ymax"],
        ["t-80/a.jpg", "100", "100", "tank", "10", "10", "90", "90"],
        ["t-80/b.png", "50", "60", "tank", "5", "6", "45", "54"]], ["unknown"]) := by
  decide

/-- Claim C1, amended: on the §8 example — detections t-80/a.jpg (100x100),
t-80/b.png (50x60) and unknown/c.bmp (10x10) with the tank/lav table at
coverage 80 — export writes exactly the header row followed by
`a.jpg,100,100,tank,10,10,90,90` and `b.png,50,60,tank,5,6,45,54` (filenames
relative to the label directory itself), omits the unknown/c.bmp row, and
reports the skipped-label set {"unknown"}. -/
theorem claim_C1_amended :
    runPipeline "images" (.ok exampleFs) exampleClassifier =
      .ok ([["filename", "width", "height", "class", "xmin", "ymin", "xmax", "ymax"],
        ["a.jpg", "100", "100", "tank", "10", "10", "90", "90"],
        ["b.png", "50", "60", "tank", "5", "6", "45", "54"]], ["unknown"]) ∧
    renderCsv [["filename", "width", "height", "class", "xmin", "ymin", "xmax", "ymax"],
        ["a.jpg", "100", "100", "tank", "10", "10", "90", "90"],
        ["b.png", "50", "60", "tank", "5", "6", "45", "54"]] =
      ["filename,width,height,class,xmin,ymin,xmax,ymax",
        "a.jpg,100,100,tank,10,10,90,90",
        "b.png,50,60,tank,5,6,45,54"] :=
  ⟨by decide, by decide⟩

/-- Claim C2, as stated, is false on the code: the `f32` scaling of
`calculate_bounding_box` does not agree with the exact integer formula for
every u32 width and height.  At width = height = 2^24 the code computes
w = 13421773 (because 0.8f32 = 13421773/2^24 rounds upward) while
floor(2^24 * 80 / 100) = 13421772. -/
theorem claim_C2_counterexample :
    ¬ (∀ width height : ℕ, width < 2 ^ 32 → height < 2 ^ 32 →
        calculate_bounding_box 80 width height = bboxSpecInt 80 width height) := fun h =>
  absurd (h 16777216 16777216 (by norm_num) (by norm_num)) (by decide)

/-- Claim C2, amended: for all width and height up to 2^21, the bounding box
computed by the code's `f32` arithmetic at the default coverage of 80% equals
the spec's exact integer formula (floor divisions throughout). -/
theorem claim_C2_amended (width height : ℕ) (hw : width ≤ 2 ^ 21) (hh : height ≤ 2 ^ 21) :
    calculate_bounding_box 80 width height = bboxSpecInt 80 width height := by
  simp only [calculate_bounding_box, bboxSpecInt, bboxW_80_eq_int width hw,
    bboxW_80_eq_int height hh]

theorem claim_C2_witness :
    calculate_bounding_box 80 100 60 = bboxSpecInt 80 100 60 :=
  claim_C2_amended 100 60 (by norm_num) (by norm_num)

/-- Claim C3: every Detection produced by traversal has path
root/bucket/file, and the `filename` column written for it is exactly its path
made relative to the first-level label directory [root, bucket] — the path
under the class folder, here the file's name. -/
theorem claim_C3 (rootName : String) (entries : List Entry) (result : List ObjectDetection)
    (hres : traverse_images rootName (.ok entries) = .ok result) :
    ∀ d ∈ result, ∃ bucket fname,
      d.filename = [rootName, bucket, fname] ∧
      pathStrip d.filename [rootName, bucket] = some [fname] ∧
      get_relative_filename d.filename (get_base_dir d.filename) = [fname] ∧
      ∀ cls, (rowOf d cls).head? = some fname := by
  intro d hd
  simp only [traverse_images] at hres
  cases hm : mapExcept (processBucket rootName) (entries.filter isDirEntry) with
  | error e => rw [hm] at hres; simp at hres
  | ok nested =>
    rw [hm] at hres
    simp only [Except.ok.injEq] at hres
    subst hres
    obtain ⟨bucketDets, hbd, hdbd⟩ := List.mem_flatten.mp hd
    obtain ⟨ent, _, hpe⟩ := mapExcept_ok_mem hm bucketDets hbd
    cases ent with
    | fileE n p =>
      have : bucketDets = [] := by
        have h0 : processBucket rootName (.fileE n p) = .ok [] := rfl
        rw [h0] at hpe
        simp only [Except.ok.injEq] at hpe
        exact hpe.symm
      subst this
      simp at hdbd
    | dirE bname listing =>
      cases listing with
      | error e => simp [processBucket] at hpe
      | ok files =>
        rw [processBucket_dirE_ok] at hpe
        obtain ⟨x, _, hfx⟩ := mapExcept_ok_mem hpe d hdbd
        obtain ⟨fname, probe⟩ := x
        cases probe with
        | error e => rw [probeFile_error_eval] at hfx; simp at hfx
        | ok wh =>
          rw [probeFile_ok_eval] at hfx
          simp only [Except.ok.injEq] at hfx
          subst hfx
          refine ⟨bname, fname, rfl, ?_, ?_, ?_⟩
          · simp [pathStrip]
          · simp [get_relative_filename, get_base_dir, pathStrip]
          · intro cls
            have hhead : (rowOf ⟨[rootName, bname, fname], wh.1, wh.2, bname⟩ cls).head? =
                some (renderPath (get_relative_filename [rootName, bname, fname]
                  (get_base_dir [rootName, bname, fname]))) := rfl
            rw [hhead]
            have hrel : get_relative_filename [rootName, bname, fname]
                (get_base_dir [rootName, bname, fname]) = [fname] := by
              simp [get_relative_filename, get_base_dir, pathStrip]
            rw [hrel, renderPath_single]

theorem claim_C3_witness :
    ∃ bucket fname,
      (⟨["images", "t-80", "a.jpg"], 100, 100, "t-80"⟩ : ObjectDetection).filename =
        ["images", bucket, fname] ∧
      pathStrip (⟨["images", "t-80", "a.jpg"], 100, 100, "t-80"⟩ :
        ObjectDetection).filename ["images", bucket] = some [fname] ∧
      get_relative_filename (⟨["images", "t-80", "a.jpg"], 100, 100, "t-80"⟩ :
          ObjectDetection).filename
        (get_base_dir (⟨["images", "t-80", "a.jpg"], 100, 100, "t-80"⟩ :
          ObjectDetection).filename) = [fname] ∧
      ∀ cls, (rowOf (⟨["images", "t-80", "a.jpg"], 100, 100, "t-80"⟩ : ObjectDetection)
        cls).head? = some fname :=
  claim_C3 "images" exampleFs
    [⟨["images", "t-80", "a.jpg"], 100, 100, "t-80"⟩,
      ⟨["images", "t-80", "b.png"], 50, 60, "t-80"⟩,
      ⟨["images", "unknown", "c.bmp"], 10, 10, "unknown"⟩]
    (by decide)
    ⟨["images", "t-80", "a.jpg"], 100, 100, "t-80"⟩
    (by decide)

/-- Claim C4: classification scans the two configured groups in load order
(tanks, then lavs) and returns the class of the first group whose label list
contains the raw label (case-sensitive String equality), `none` when neither
contains it; on the example table, t-80 maps to tank, btr-70 to lav, and
unknown to none. -/
theorem claim_C4 :
    (∀ (c : LabelClassification) (label : String),
      (∀ cn, get_class c label = some cn ↔
        (label ∈ c.tanks.labels ∧ cn = c.tanks.cls) ∨
        (label ∉ c.tanks.labels ∧ label ∈ c.lavs.labels ∧ cn = c.lavs.cls)) ∧
      (get_class c label = none ↔ label ∉ c.tanks.labels ∧ label ∉ c.lavs.labels)) ∧
    get_class exampleClassifier "t-80" = some "tank" ∧
    get_class exampleClassifier "btr-70" = some "lav" ∧
    get_class exampleClassifier "unknown" = none := by
  refine ⟨?_, by decide, by decide, by decide⟩
  intro c label
  constructor
  · intro cn
    by_cases h1 : label ∈ c.tanks.labels <;> by_cases h2 : label ∈ c.lavs.labels <;>
      simp [get_class, firstMatch, h1, h2, eq_comm]
  · by_cases h1 : label ∈ c.tanks.labels <;> by_cases h2 : label ∈ c.lavs.labels <;>
      simp [get_class, firstMatch, h1, h2]

/-- Claim C5: at the instantiated coverage of 80, for u32 dimensions at least
2, the computed box satisfies xmin ≤ xmax ≤ width and ymin ≤ ymax ≤ height and
is centered within one unit of rounding in each axis. -/
theorem claim_C5 (width height : ℕ) (hw2 : 2 ≤ width) (hwu : width < 2 ^ 32)
    (hh2 : 2 ≤ height) (hhu : height < 2 ^ 32) :
    (calculate_bounding_box 80 width height).1 ≤ (calculate_bounding_box 80 width height).2.2.1 ∧
    (calculate_bounding_box 80 width height).2.2.1 ≤ width ∧
    (calculate_bounding_box 80 width height).2.1 ≤ (calculate_bounding_box 80 width height).2.2.2 ∧
    (calculate_bounding_box 80 width height).2.2.2 ≤ height ∧
    |((calculate_bounding_box 80 width height).1 : ℤ) -
      ((width : ℤ) - ((calculate_bounding_box 80 width height).2.2.1 : ℤ))| ≤ 1 ∧
    |((calculate_bounding_box 80 width height).2.1 : ℤ) -
      ((height : ℤ) - ((calculate_bounding_box 80 width height).2.2.2 : ℤ))| ≤ 1 := by
  have hwle := bboxW_80_le width
  have hhle := bboxW_80_le height
  simp only [calculate_bounding_box]
  refine ⟨?_, ?_, ?_, ?_, ?_, ?_⟩
  · omega
  · omega
  · omega
  · omega
  · rw [abs_le]; omega
  · rw [abs_le]; omega

theorem claim_C5_witness :
    (calculate_bounding_box 80 100 60).1 ≤ (calculate_bounding_box 80 100 60).2.2.1 ∧
    (calculate_bounding_box 80 100 60).2.2.1 ≤ 100 ∧
    (calculate_bounding_box 80 100 60).2.1 ≤ (calculate_bounding_box 80 100 60).2.2.2 ∧
    (calculate_bounding_box 80 100 60).2.2.2 ≤ 60 ∧
    |((calculate_bounding_box 80 100 60).1 : ℤ) -
      ((100 : ℤ) - ((calculate_bounding_box 80 100 60).2.2.1 : ℤ))| ≤ 1 ∧
    |((calculate_bounding_box 80 100 60).2.1 : ℤ) -
      ((60 : ℤ) - ((calculate_bounding_box 80 100 60).2.2.2 : ℤ))| ≤ 1 :=
  claim_C5 100 60 (by norm_num) (by norm_num) (by norm_num) (by norm_num)

/-- Claim C6, as stated, is false on the code: at coverage 100 the box is not
(0, 0, w, h) for every even u32 width and height.  At width = 2^25 + 2 the
`f32` conversion rounds the width to 2^25 (ties to even), so the box comes
out as (1, 0, 2^25 + 1, 2). -/
theorem claim_C6_counterexample :
    ¬ (∀ width height : ℕ, width < 2 ^ 32 → height < 2 ^ 32 → 2 ∣ width → 2 ∣ height →
        calculate_bounding_box 100 width height = (0, 0, width, height)) := fun h =>
  absurd (h 33554434 2 (by norm_num) (by norm_num) (by norm_num) (by norm_num)) (by decide)

/-- Claim C6, amended: for even width and height up to 2^24 (the range on
which u32 → f32 conversion is exact), the box at coverage 100 is exactly
(0, 0, width, height). -/
theorem claim_C6_amended (width height : ℕ) (hweven : 2 ∣ width) (hheven : 2 ∣ height)
    (hw : width ≤ 2 ^ 24) (hh : height ≤ 2 ^ 24) :
    calculate_bounding_box 100 width height = (0, 0, width, height) := by
  have hc : coverageConst 100 = 1 := by decide
  have hbw : ∀ n : ℕ, n ≤ 2 ^ 24 → bboxW 100 n = n := by
    intro n hn
    simp only [bboxW, hc, mul_one, rne_int n hn, f32toU32, Int.floor_natCast]
    omega
  simp only [calculate_bounding_box, hbw width hw, hbw height hh]
  simp [Nat.sub_self]

theorem claim_C6_witness : calculate_bounding_box 100 100 60 = (0, 0, 100, 60) :=
  claim_C6_amended 100 60 (by norm_num) (by norm_num) (by norm_num) (by norm_num)

/-- Claim C7: if any label bucket fails to list or any qualifying file fails
to probe, extraction fails with the first such error in traversal order, and
the pipeline propagates that error, producing no CSV. -/
theorem claim_C7 (rootName : String) (entries : List Entry) (e : String)
    (classifier : LabelClassification)
    (h : firstExtractionError entries = some e) :
    traverse_images rootName (.ok entries) = .error e ∧
    runPipeline rootName (.ok entries) classifier = .error e := by
  simp only [firstExtractionError] at h
  have ht : traverse_images rootName (.ok entries) = .error e := by
    simp only [traverse_images, mapExcept_buckets_error rootName _ e h]
  exact ⟨ht, by simp only [runPipeline, ht]⟩

theorem claim_C7_witness :
    traverse_images "images"
      (.ok [Entry.dirE "t-80" (.ok [.fileE "a.jpg" (.error "DecodeError")])]) =
      .error "DecodeError" ∧
    runPipeline "images"
      (.ok [Entry.dirE "t-80" (.ok [.fileE "a.jpg" (.error "DecodeError")])])
      exampleClassifier = .error "DecodeError" :=
  claim_C7 "images" [Entry.dirE "t-80" (.ok [.fileE "a.jpg" (.error "DecodeError")])]
    "DecodeError" exampleClassifier (by decide)

/-- Claim C8: export writes the fixed header record followed by exactly one
data record per detection whose raw label classifies; detections with an
unconfigured raw label are omitted from the records without failing export and
are reported back (not written into the file). -/
theorem claim_C8 (data : List ObjectDetection) (classifier : LabelClassification) :
    (exportCsv data classifier).1 =
      ["filename", "width", "height", "class", "xmin", "ymin", "xmax", "ymax"] ::
        data.filterMap (fun d => (get_class classifier d.cls).map (rowOf d)) ∧
    (exportCsv data classifier).2 =
      data.filterMap (fun d =>
        match get_class classifier d.cls with
        | some _ => none
        | none => some d.cls) := by
  rw [exportCsv, exportLoop_spec classifier data]
  exact ⟨rfl, rfl⟩

/-- Claim C9: traversal of a root that lists successfully but contains no
first-level subdirectory yields the empty detection sequence, not an error. -/
theorem claim_C9 (rootName : String) (entries : List Entry)
    (h : ∀ ent ∈ entries, isDirEntry ent = false) :
    traverse_images rootName (.ok entries) = .ok [] := by
  have hf : entries.filter isDirEntry = [] := by
    rw [List.filter_eq_nil_iff]
    intro a ha
    simp [h a ha]
  simp [traverse_images, hf, mapExcept]

theorem claim_C9_witness :
    traverse_images "images" (.ok [Entry.fileE "stray.jpg" (.ok (3, 3))]) = .ok [] :=
  claim_C9 "images" [Entry.fileE "stray.jpg" (.ok (3, 3))] (by decide)

/-- Claim C10: for every pair of u32 inputs, the derived box dimension at
coverage 80 never exceeds the image dimension, so the unsigned subtractions
x_center - w/2 and y_center - h/2 of `calculate_bounding_box` never underflow:
the natural-number subtraction agrees with the integer subtraction. -/
theorem claim_C10 (width height : ℕ) (hwu : width < 2 ^ 32) (hhu : height < 2 ^ 32) :
    bboxW 80 width ≤ width ∧ bboxW 80 height ≤ height ∧
    bboxW 80 width / 2 ≤ width / 2 ∧ bboxW 80 height / 2 ≤ height / 2 ∧
    ((width / 2 - bboxW 80 width / 2 : ℕ) : ℤ) =
      ((width / 2 : ℕ) : ℤ) - ((bboxW 80 width / 2 : ℕ) : ℤ) ∧
    ((height / 2 - bboxW 80 height / 2 : ℕ) : ℤ) =
      ((height / 2 : ℕ) : ℤ) - ((bboxW 80 height / 2 : ℕ) : ℤ) := by
  have hwle := bboxW_80_le width
  have hhle := bboxW_80_le height
  refine ⟨hwle, hhle, ?_, ?_, ?_, ?_⟩ <;> omega

theorem claim_C10_witness :
    bboxW 80 4096 ≤ 4096 ∧ bboxW 80 2160 ≤ 2160 ∧
    bboxW 80 4096 / 2 ≤ 4096 / 2 ∧ bboxW 80 2160 / 2 ≤ 2160 / 2 ∧
    ((4096 / 2 - bboxW 80 4096 / 2 : ℕ) : ℤ) =
      ((4096 / 2 : ℕ) : ℤ) - ((bboxW 80 4096 / 2 : ℕ) : ℤ) ∧
    ((2160 / 2 - bboxW 80 2160 / 2 : ℕ) : ℤ) =
      ((2160 / 2 : ℕ) : ℤ) - ((bboxW 80 2160 / 2 : ℕ) : ℤ) :=
  claim_C10 4096 2160 (by norm_num) (by norm_num)
